import Mathlib

/-!
Verification development for the DB-Visualizer core: the paginated /
searchable query layer, the value classifier, the analysis engine
aggregates, the job registry, the result store, and the Analytics view's
progress-event handling.  The React frontend (`src/pages/dashboards`) is
translated directly; the Rust backend commands it invokes
(`get_table_data`, `start_db_analysis`, ...) are not part of the
distributed sources, so those components are modelled from the spec,
each such definition marked `Modelled from the spec:` in its doc string.
-/

namespace DBVis

/-- Modelled from the spec: a scalar cell is a closed tagged union with
exactly the variants Null / Integer / Real / Text / Blob (§3 CellValue).
The Real variant's payload is carried as its canonical decimal rendering,
since every observable use of a Real in the spec goes through that
rendering. A Blob is its byte sequence. -/
inductive CellValue where
  | Null : CellValue
  | Integer : Int → CellValue
  | Real : String → CellValue
  | Text : String → CellValue
  | Blob : List Nat → CellValue
deriving DecidableEq, Repr

/-- Modelled from the spec: textual coercion of a cell (§4.2): Null
renders as empty, numeric types render in canonical decimal form, text
renders as itself, a blob as the text formed from its bytes. -/
def renderCell : CellValue → String
  | CellValue.Null => ""
  | CellValue.Integer i => toString i
  | CellValue.Real r => r
  | CellValue.Text s => s
  | CellValue.Blob b => String.mk (b.map Char.ofNat)

/-- `startsWith hay nd` decides whether `nd` is an initial segment of `hay`. -/
def startsWith : List Char → List Char → Bool
  | _, [] => true
  | [], _ :: _ => false
  | a :: hay, b :: nd => a == b && startsWith hay nd

/-- `containsSub hay nd` decides whether `nd` occurs contiguously in `hay`. -/
def containsSub : List Char → List Char → Bool
  | _, [] => true
  | [], _ :: _ => false
  | a :: hay, b :: nd => startsWith (a :: hay) (b :: nd) || containsSub hay (b :: nd)

theorem startsWith_iff (hay nd : List Char) :
    startsWith hay nd = true ↔ ∃ rest, hay = nd ++ rest := by
  induction nd generalizing hay with
  | nil => simp [startsWith]
  | cons b nd ih =>
    cases hay with
    | nil => simp [startsWith]
    | cons a hay =>
      simp only [startsWith, Bool.and_eq_true, beq_iff_eq, ih]
      constructor
      · rintro ⟨rfl, rest, rfl⟩
        exact ⟨rest, rfl⟩
      · rintro ⟨rest, h⟩
        rw [List.cons_append] at h
        cases h
        exact ⟨rfl, rest, rfl⟩

theorem containsSub_iff (hay nd : List Char) :
    containsSub hay nd = true ↔ ∃ pre post, hay = pre ++ nd ++ post := by
  induction hay with
  | nil =>
    cases nd with
    | nil => simp [containsSub]
    | cons b nd => simp [containsSub]
  | cons a hay ih =>
    cases nd with
    | nil => exact ⟨fun _ => ⟨[], a :: hay, rfl⟩, fun _ => rfl⟩
    | cons b nd =>
      simp only [containsSub, Bool.or_eq_true, startsWith_iff, ih]
      constructor
      · rintro (⟨rest, h⟩ | ⟨pre, post, h⟩)
        · exact ⟨[], rest, by simpa using h⟩
        · exact ⟨a :: pre, post, by simp [h]⟩
      · rintro ⟨pre, post, h⟩
        cases pre with
        | nil => exact Or.inl ⟨post, by simpa using h⟩
        | cons p pre =>
          rw [List.cons_append, List.cons_append] at h
          cases h
          exact Or.inr ⟨pre, post, rfl⟩

/-- Modelled from the spec: case-insensitive substring test of the
needle against a cell's textual rendering (§4.2). -/
def cellMatches (needle : String) (c : CellValue) : Bool :=
  containsSub ((renderCell c).data.map Char.toLower) (needle.data.map Char.toLower)

/-- Modelled from the spec: a row qualifies if any column's textual form
contains the needle (§4.2). -/
def rowMatches (needle : String) (row : List CellValue) : Bool :=
  row.any (cellMatches needle)

/-- The four classification buckets (§4.3). -/
inductive CharBucket where
  | numeric : CharBucket
  | alphabetic : CharBucket
  | special : CharBucket
  | unknown : CharBucket
deriving DecidableEq, Repr

/-- Modelled from the spec: punctuation / whitespace / symbols count as
special characters (§4.3): whitespace, or a printable ASCII character
that is neither a digit nor a letter. -/
def isSpecialChar (c : Char) : Bool :=
  c.isWhitespace || (33 ≤ c.toNat && c.toNat ≤ 126 && !c.isAlphanum)

/-- Modelled from the spec: the pure classifier (§4.3): digits are
numeric, letters alphabetic, punctuation / whitespace / symbols special,
anything else unknown. -/
def classify (c : Char) : CharBucket :=
  if c.isDigit then CharBucket.numeric
  else if c.isAlpha then CharBucket.alphabetic
  else if isSpecialChar c then CharBucket.special
  else CharBucket.unknown

/-- A table as read from the file: name, ordered column list, ordered rows. -/
structure TableData where
  name : String
  columns : List String
  rows : List (List CellValue)
deriving DecidableEq, Repr

/-- A database file: its ordered list of user tables. -/
structure Database where
  tables : List TableData
deriving DecidableEq, Repr

/-- The error taxonomy (§7). -/
inductive DbError where
  | NotFound : DbError
  | InvalidArgument : DbError
  | TableNotFound : DbError
  | QueryError : DbError
  | SchemaError : DbError
  | AlreadyRunning : DbError
  | NotRunning : DbError
deriving DecidableEq, Repr

/-- One page of query results (§3 PageResult), together with the
effective (clamped) 1-based page the rows were taken at. -/
structure PageResult where
  columns : List String
  rows : List (List CellValue)
  total_rows : Nat
  total_pages : Nat
  page : Nat
deriving DecidableEq, Repr

/-- Ceiling division on naturals: `ceilDiv a b = ⌈a / b⌉` for `b > 0`. -/
def ceilDiv (a b : Nat) : Nat := (a + b - 1) / b

/-- Modelled from the spec: the search filter (§4.2) — applied only when
search text is present and non-empty; a case-insensitive substring match
across every column of the row. -/
def filterRows (search : Option String) (rows : List (List CellValue)) :
    List (List CellValue) :=
  match search with
  | none => rows
  | some s => if s.data.isEmpty then rows else rows.filter (rowMatches s)

/-- The slice of the filtered rows shown on 1-based page `p` at size `ps`. -/
def pageSlice (rows : List (List CellValue)) (p ps : Nat) :
    List (List CellValue) :=
  (rows.drop ((p - 1) * ps)).take ps

/-- Modelled from the spec: `fetchPage` / `get_table_data` (§4.2, §6).
Validates that page and page size are positive (else `InvalidArgument`),
resolves the table (else `TableNotFound`), applies the search filter,
computes the filtered total and `total_pages = ceil(total / pageSize)`,
clamps the page into `[1, max 1 total_pages]`, and returns the page. -/
def fetchPage (db : Database) (table : String) (page pageSize : Int)
    (search : Option String) : Except DbError PageResult :=
  if page < 1 ∨ pageSize < 1 then Except.error DbError.InvalidArgument
  else
    match db.tables.find? (fun t => t.name == table) with
    | none => Except.error DbError.TableNotFound
    | some t =>
      let ps := pageSize.toNat
      let filtered := filterRows search t.rows
      let total := filtered.length
      let tp := ceilDiv total ps
      let p := min page.toNat (max 1 tp)
      Except.ok
        { columns := t.columns
          rows := pageSlice filtered p ps
          total_rows := total
          total_pages := tp
          page := p }

/-- The rows of 0-indexed page `i` (i.e. 1-based page `i+1`) of an
unfiltered table, empty when the call fails. -/
def pageRows (db : Database) (table : String) (pageSize : Int) (i : Nat) :
    List (List CellValue) :=
  match fetchPage db table ((i : Int) + 1) pageSize none with
  | Except.ok r => r.rows
  | Except.error _ => []

theorem ceilDiv_nil (b : Nat) : ceilDiv 0 b = 0 := by
  unfold ceilDiv
  cases b with
  | zero => rfl
  | succ b => exact Nat.div_eq_of_lt (by omega)

theorem ceilDiv_step {n ps : Nat} (hps : 0 < ps) (hn : 0 < n) :
    ceilDiv n ps = ceilDiv (n - ps) ps + 1 := by
  unfold ceilDiv
  rcases le_or_lt n ps with h | h
  · have h0 : n - ps = 0 := by omega
    rw [h0]
    have h1 : (0 + ps - 1) / ps = 0 := Nat.div_eq_of_lt (by omega)
    rw [h1]
    exact Nat.div_eq_of_lt_le (by omega) (by omega)
  · have h2 : n + ps - 1 = (n - ps + ps - 1) + ps := by omega
    rw [h2, Nat.add_div_right _ hps]

theorem flatten_pages {α : Type} {ps : Nat} (hps : 0 < ps) :
    ∀ (fuel : Nat) (l : List α), l.length ≤ fuel →
      ((List.range (ceilDiv l.length ps)).map
          (fun i => (l.drop (i * ps)).take ps)).flatten = l := by
  intro fuel
  induction fuel with
  | zero =>
    intro l hl
    have : l = [] := List.length_eq_zero.mp (Nat.le_zero.mp hl)
    subst this
    simp [ceilDiv_nil]
  | succ f ih =>
    intro l hl
    rcases List.eq_nil_or_concat l with rfl | _
    · simp [ceilDiv_nil]
    · have hlen : 0 < l.length := by
        cases l with
        | nil => simp_all
        | cons a l => simp
      rw [ceilDiv_step hps hlen, List.range_succ_eq_map, List.map_cons,
        List.flatten_cons, List.map_map]
      have hrest :
          ((List.range (ceilDiv (l.length - ps) ps)).map
            ((fun i => (l.drop (i * ps)).take ps) ∘ Nat.succ)).flatten
          = l.drop ps := by
        have hdl : (l.drop ps).length = l.length - ps := List.length_drop ps l
        have hcongr :
            (List.range (ceilDiv (l.length - ps) ps)).map
              ((fun i => (l.drop (i * ps)).take ps) ∘ Nat.succ)
            = (List.range (ceilDiv (l.drop ps).length ps)).map
              (fun i => ((l.drop ps).drop (i * ps)).take ps) := by
          rw [hdl]
          refine List.map_congr_left ?_
          intro i _
          simp only [Function.comp, Nat.succ_eq_add_one]
          rw [List.drop_drop]
          ring_nf
        rw [hcongr]
        exact ih (l.drop ps) (by omega)
      rw [hrest]
      simp only [Nat.zero_mul, List.drop_zero]
      exact List.take_append_drop ps l

theorem fetchPage_unfiltered_eq (db : Database) (table : String) (t : TableData)
    (pageSize : Int) (h1 : 1 ≤ pageSize)
    (ht : db.tables.find? (fun x => x.name == table) = some t)
    (i : Nat) (hi : i < ceilDiv t.rows.length pageSize.toNat) :
    fetchPage db table ((i : Int) + 1) pageSize none =
      Except.ok
        { columns := t.columns
          rows := (t.rows.drop (i * pageSize.toNat)).take pageSize.toNat
          total_rows := t.rows.length
          total_pages := ceilDiv t.rows.length pageSize.toNat
          page := i + 1 } := by
  unfold fetchPage
  rw [if_neg (by omega), ht]
  simp only [filterRows, pageSlice]
  have htn : ((i : Int) + 1).toNat = i + 1 := by omega
  rw [htn]
  have hmin : min (i + 1) (max 1 (ceilDiv t.rows.length pageSize.toNat)) = i + 1 := by
    have : i + 1 ≤ ceilDiv t.rows.length pageSize.toNat := hi
    omega
  rw [hmin]
  simp

theorem pageRows_eq (db : Database) (table : String) (t : TableData)
    (pageSize : Int) (h1 : 1 ≤ pageSize)
    (ht : db.tables.find? (fun x => x.name == table) = some t)
    (i : Nat) (hi : i < ceilDiv t.rows.length pageSize.toNat) :
    pageRows db table pageSize i =
      (t.rows.drop (i * pageSize.toNat)).take pageSize.toNat := by
  unfold pageRows
  rw [fetchPage_unfiltered_eq db table t pageSize h1 ht i hi]

/-- C1: for every table and every valid page size with no search text, the
pages returned by `getTablePage` (`fetchPage`) partition the table: the sum
of `rows.length` over all pages equals the table's row count, concatenating
the pages in order reproduces every row exactly once, and repeated calls
against the unmodified file return identical results (the query layer is a
pure function of the file contents), so no row is duplicated or skipped
between consecutive pages. -/
theorem getTablePage_partitions (db : Database) (table : String)
    (t : TableData) (pageSize : Int) (h1 : 1 ≤ pageSize)
    (ht : db.tables.find? (fun x => x.name == table) = some t) :
    ((List.range (ceilDiv t.rows.length pageSize.toNat)).map
        (pageRows db table pageSize)).flatten = t.rows
    ∧ ((List.range (ceilDiv t.rows.length pageSize.toNat)).map
        (fun i => (pageRows db table pageSize i).length)).sum = t.rows.length
    ∧ ∀ p s, fetchPage db table p pageSize s = fetchPage db table p pageSize s := by
  have hps : 0 < pageSize.toNat := by omega
  have hmap :
      (List.range (ceilDiv t.rows.length pageSize.toNat)).map
        (pageRows db table pageSize)
      = (List.range (ceilDiv t.rows.length pageSize.toNat)).map
        (fun i => (t.rows.drop (i * pageSize.toNat)).take pageSize.toNat) := by
    refine List.map_congr_left ?_
    intro i hi
    exact pageRows_eq db table t pageSize h1 ht i (List.mem_range.mp hi)
  have hflat :
      ((List.range (ceilDiv t.rows.length pageSize.toNat)).map
        (pageRows db table pageSize)).flatten = t.rows := by
    rw [hmap]
    exact flatten_pages hps t.rows.length t.rows (le_refl _)
  refine ⟨hflat, ?_, fun _ _ => rfl⟩
  have := List.length_flatten
    ((List.range (ceilDiv t.rows.length pageSize.toNat)).map
      (pageRows db table pageSize))
  rw [hflat, List.map_map] at this
  exact this.symm

/-- Witness for C1 at a concrete database: table `t` with three rows at
page size two splits into pages of two rows and one row. -/
theorem getTablePage_partitions_witness :
    ((List.range (ceilDiv
        (⟨"t", ["c"], [[CellValue.Integer 1], [CellValue.Integer 2],
          [CellValue.Integer 3]]⟩ : TableData).rows.length (2 : Int).toNat)).map
      (pageRows ⟨[⟨"t", ["c"], [[CellValue.Integer 1], [CellValue.Integer 2],
          [CellValue.Integer 3]]⟩]⟩ "t" 2)).flatten
    = [[CellValue.Integer 1], [CellValue.Integer 2], [CellValue.Integer 3]] :=
  (getTablePage_partitions
    ⟨[⟨"t", ["c"], [[CellValue.Integer 1], [CellValue.Integer 2],
        [CellValue.Integer 3]]⟩]⟩ "t"
    ⟨"t", ["c"], [[CellValue.Integer 1], [CellValue.Integer 2],
        [CellValue.Integer 3]]⟩ 2 (by omega) (by rfl)).1

/-- C2: for every non-empty search string (the spec's filter applies only
to present, non-empty search text), every row returned by `getTablePage`
contains the needle case-insensitively as a contiguous substring of the
textual rendering of at least one of its columns, and the returned
`total_pages` equals `ceil(matchCount / pageSize)` where `matchCount`
counts the rows matching that same filter, not the unfiltered table
size. -/
theorem search_rows_match (db : Database) (table : String) (t : TableData)
    (page pageSize : Int) (s : String)
    (ht : db.tables.find? (fun x => x.name == table) = some t)
    (hs : s.data ≠ []) (res : PageResult)
    (hok : fetchPage db table page pageSize (some s) = Except.ok res) :
    (∀ row ∈ res.rows, ∃ c ∈ row, ∃ pre post,
        (renderCell c).data.map Char.toLower
          = pre ++ s.data.map Char.toLower ++ post)
    ∧ res.total_pages
        = ceilDiv (t.rows.filter (rowMatches s)).length pageSize.toNat := by
  have hse : s.data.isEmpty = false := by
    cases h : s.data with
    | nil => exact absurd h hs
    | cons a l => rfl
  unfold fetchPage at hok
  split at hok
  · cases hok
  · rw [ht] at hok
    simp only [filterRows, hse, Bool.false_eq_true, if_false] at hok
    injection hok with h
    subst h
    refine ⟨?_, rfl⟩
    intro row hrow
    have hmem : row ∈ t.rows.filter (rowMatches s) :=
      List.mem_of_mem_drop (List.mem_of_mem_take hrow)
    have hmatch : rowMatches s row = true := (List.mem_filter.mp hmem).2
    rcases List.any_eq_true.mp hmatch with ⟨c, hc, hcm⟩
    rcases (containsSub_iff _ _).mp hcm with ⟨pre, post, hsplit⟩
    exact ⟨c, hc, pre, post, hsplit⟩

/-- Witness for C2: searching `"B"` in a two-row table returns exactly the
row whose text `"Ab"` contains `"b"` case-insensitively, with one page. -/
theorem search_rows_match_witness :
    (∀ row ∈ (⟨["c"], [[CellValue.Text "Ab"]], 1, 1, 1⟩ : PageResult).rows,
        ∃ c ∈ row, ∃ pre post,
          (renderCell c).data.map Char.toLower
            = pre ++ "B".data.map Char.toLower ++ post)
    ∧ (⟨["c"], [[CellValue.Text "Ab"]], 1, 1, 1⟩ : PageResult).total_pages
        = ceilDiv ((⟨"t", ["c"], [[CellValue.Text "Ab"], [CellValue.Text "zz"]]⟩
            : TableData).rows.filter (rowMatches "B")).length (10 : Int).toNat :=
  search_rows_match
    ⟨[⟨"t", ["c"], [[CellValue.Text "Ab"], [CellValue.Text "zz"]]⟩]⟩ "t"
    ⟨"t", ["c"], [[CellValue.Text "Ab"], [CellValue.Text "zz"]]⟩
    1 10 "B" (by rfl) (by decide) ⟨["c"], [[CellValue.Text "Ab"]], 1, 1, 1⟩
    (by rfl)

/-- C3: every `PageResult` returned by a successful `fetchPage` call
satisfies `rows.length ≤ page_size` and `1 ≤ page ≤ max 1 total_pages`;
a call whose page or page size is not a positive integer does not return
a page but fails with `InvalidArgument`. -/
theorem fetchPage_invariants (db : Database) (table : String)
    (page pageSize : Int) (search : Option String) :
    ((page < 1 ∨ pageSize < 1) →
        fetchPage db table page pageSize search
          = Except.error DbError.InvalidArgument)
    ∧ ∀ res, fetchPage db table page pageSize search = Except.ok res →
        res.rows.length ≤ pageSize.toNat
        ∧ 1 ≤ res.page ∧ res.page ≤ max 1 res.total_pages := by
  constructor
  · intro h
    unfold fetchPage
    rw [if_pos h]
  · intro res hok
    unfold fetchPage at hok
    split at hok
    · cases hok
    · rename_i hvalid
      split at hok
      · cases hok
      · injection hok with h
        subst h
        refine ⟨?_, ?_, ?_⟩
        · simp only [pageSlice, List.length_take, List.length_drop]
          omega
        · simp only []
          omega
        · simp only []
          omega

/-- Witness for C3: a non-positive page fails with `InvalidArgument`, at
the one-row table from the C1 witness shape. -/
theorem fetchPage_invariants_witness :
    fetchPage ⟨[⟨"t", ["c"], [[CellValue.Null]]⟩]⟩ "t" 0 10 none
      = Except.error DbError.InvalidArgument :=
  (fetchPage_invariants ⟨[⟨"t", ["c"], [[CellValue.Null]]⟩]⟩ "t" 0 10 none).1
    (Or.inl (by omega))

/-- C4: `classify` is total and deterministic — every character maps to
exactly one defined bucket (never an error), re-classifying the same
character always yields the same bucket, and the four buckets therefore
partition the set of all characters. -/
theorem classify_total_deterministic_partition :
    (∀ c : Char, ∃! b : CharBucket, classify c = b)
    ∧ ∀ c : Char, ∀ b₁ b₂ : CharBucket,
        classify c = b₁ → classify c = b₂ → b₁ = b₂ := by
  constructor
  · intro c
    exact ⟨classify c, rfl, fun b hb => hb.symm⟩
  · intro c b₁ b₂ h1 h2
    rw [← h1, ← h2]

/-- The character-level type-distribution counters (§3 AnalysisResult,
§6 persisted document: fields `numeric`, `alphabets`, `special`,
`unknown`). -/
structure TypeDist where
  numeric : Nat
  alphabets : Nat
  special : Nat
  unknown : Nat
deriving DecidableEq, Repr

/-- Sum of the four type-distribution buckets. -/
def TypeDist.total (d : TypeDist) : Nat :=
  d.numeric + d.alphabets + d.special + d.unknown

/-- Increment the bucket a classified character falls in. -/
def bumpBucket (d : TypeDist) : CharBucket → TypeDist
  | CharBucket.numeric => { d with numeric := d.numeric + 1 }
  | CharBucket.alphabetic => { d with alphabets := d.alphabets + 1 }
  | CharBucket.special => { d with special := d.special + 1 }
  | CharBucket.unknown => { d with unknown := d.unknown + 1 }

/-- Increment the count of code point `k` in a frequency map kept as an
association list with unique keys. -/
def bumpFreq : List (Nat × Nat) → Nat → List (Nat × Nat)
  | [], k => [(k, 1)]
  | (k', v) :: rest, k =>
    if k = k' then (k', v + 1) :: rest else (k', v) :: bumpFreq rest k

/-- Total number of occurrences recorded in a frequency map. -/
def freqSum (l : List (Nat × Nat)) : Nat := (l.map Prod.snd).sum

/-- Modelled from the spec: email-shape matcher (§4.3) — the text has a
`@` with at least one character before it and a `.` somewhere after it. -/
def looksLikeEmail (s : String) : Bool :=
  match s.data.findIdx? (fun c => c == '@') with
  | none => false
  | some i => decide (0 < i) && (s.data.drop (i + 1)).contains '.'

/-- Modelled from the spec: URL-shape matcher (§4.3). -/
def looksLikeUrl (s : String) : Bool :=
  startsWith s.data "http://".data || startsWith s.data "https://".data

/-- Modelled from the spec: `detectFormats` (§4.3) runs the fixed set of
pattern matchers against a whole-cell text value; a cell may match zero,
one, or multiple formats. -/
def detectFormats (s : String) : List String :=
  (if looksLikeEmail s then ["email"] else [])
    ++ (if looksLikeUrl s then ["url"] else [])

/-- Union new format tags into a column's tag list, keeping it duplicate
free when the inputs are. -/
def unionFormats : List String → List String → List String
  | acc, [] => acc
  | acc, f :: fs =>
    unionFormats (if acc.contains f then acc else acc ++ [f]) fs

/-- Union format tags into the per-column detected-format map. -/
def addFormats : List (String × List String) → String → List String →
    List (String × List String)
  | [], col, fs => [(col, fs)]
  | (c, old) :: rest, col, fs =>
    if c == col then (c, unionFormats old fs) :: rest
    else (c, old) :: addFormats rest col fs

/-- The analysis aggregate (§3 AnalysisResult): total characters scanned,
character-frequency map (code point → occurrence count), character-level
type distribution, and per-column detected-format sets. -/
structure AnalysisResult where
  total_chars : Nat
  char_frequency : List (Nat × Nat)
  type_distribution : TypeDist
  column_formats : List (String × List String)
deriving DecidableEq, Repr

/-- The empty aggregate a scan starts from. -/
def emptyResult : AnalysisResult := ⟨0, [], ⟨0, 0, 0, 0⟩, []⟩

/-- Modelled from the spec: one character of a cell's rendering is fed to
the classifier and accumulated into the frequency map, the distribution
buckets, and the total character count (§4.4 step 3). -/
def processChar (r : AnalysisResult) (c : Char) : AnalysisResult :=
  { r with
    total_chars := r.total_chars + 1
    char_frequency := bumpFreq r.char_frequency c.toNat
    type_distribution := bumpBucket r.type_distribution (classify c) }

/-- Modelled from the spec: format detection runs once per text cell and
unions any matches into that column's detected-format set (§4.4 step 3). -/
def applyFormats (col : String) (r : AnalysisResult) (c : CellValue) :
    AnalysisResult :=
  match c with
  | CellValue.Text s =>
    if (detectFormats s).isEmpty then r
    else { r with column_formats := addFormats r.column_formats col (detectFormats s) }
  | _ => r

/-- Modelled from the spec: a cell contributes every character of its
canonical textual rendering to the aggregate, then is format-checked
(§4.4 step 3; non-text cells contribute via their rendering). -/
def processCell (col : String) (r : AnalysisResult) (c : CellValue) :
    AnalysisResult :=
  applyFormats col ((renderCell c).data.foldl processChar r) c

/-- Modelled from the spec: a row feeds each cell, paired with its column
name, into the aggregate. -/
def processRow (columns : List String) (r : AnalysisResult)
    (row : List CellValue) : AnalysisResult :=
  (columns.zip row).foldl (fun a p => processCell p.1 a p.2) r

/-- Modelled from the spec: the scan streams every row of a table through
the accumulator (§4.4 step 2). -/
def analyzeTable (r : AnalysisResult) (t : TableData) : AnalysisResult :=
  t.rows.foldl (processRow t.columns) r

/-- Modelled from the spec: a full-database scan iterates tables in
introspection order starting from the empty aggregate (§4.4). -/
def analyzeDb (db : Database) : AnalysisResult :=
  db.tables.foldl analyzeTable emptyResult

/-- The counting invariant of an aggregate: frequency-map occurrences and
type-distribution buckets each sum to the total character count. -/
def countsOk (r : AnalysisResult) : Prop :=
  freqSum r.char_frequency = r.total_chars
    ∧ r.type_distribution.total = r.total_chars

theorem bumpFreq_sum (l : List (Nat × Nat)) (k : Nat) :
    freqSum (bumpFreq l k) = freqSum l + 1 := by
  induction l with
  | nil => simp [bumpFreq, freqSum]
  | cons p rest ih =>
    obtain ⟨k', v⟩ := p
    by_cases h : k = k'
    · simp [bumpFreq, h, freqSum]
      omega
    · simp only [bumpFreq, if_neg h, freqSum, List.map_cons, List.sum_cons]
      have := ih
      simp only [freqSum] at this
      omega

theorem bumpBucket_total (d : TypeDist) (b : CharBucket) :
    (bumpBucket d b).total = d.total + 1 := by
  cases b <;> simp [bumpBucket, TypeDist.total] <;> omega

theorem foldl_preserves {α β : Type} (P : β → Prop) (f : β → α → β)
    (h : ∀ b a, P b → P (f b a)) :
    ∀ (l : List α) (b : β), P b → P (l.foldl f b) := by
  intro l
  induction l with
  | nil => intro b hb; exact hb
  | cons a l ih => intro b hb; exact ih (f b a) (h b a hb)

theorem processChar_countsOk (r : AnalysisResult) (c : Char)
    (h : countsOk r) : countsOk (processChar r c) := by
  obtain ⟨h1, h2⟩ := h
  constructor
  · simp only [processChar, bumpFreq_sum]
    omega
  · simp only [processChar, bumpBucket_total]
    omega

theorem applyFormats_countsOk (col : String) (r : AnalysisResult)
    (c : CellValue) (h : countsOk r) : countsOk (applyFormats col r c) := by
  cases c <;> simp only [applyFormats] <;> try exact h
  split
  · exact h
  · exact h

theorem processCell_countsOk (col : String) (r : AnalysisResult)
    (c : CellValue) (h : countsOk r) : countsOk (processCell col r c) := by
  unfold processCell
  exact applyFormats_countsOk col _ c
    (foldl_preserves countsOk processChar processChar_countsOk _ r h)

theorem processRow_countsOk (columns : List String) (r : AnalysisResult)
    (row : List CellValue) (h : countsOk r) :
    countsOk (processRow columns r row) :=
  foldl_preserves countsOk _
    (fun a p ha => processCell_countsOk p.1 a p.2 ha) _ r h

theorem analyzeTable_countsOk (r : AnalysisResult) (t : TableData)
    (h : countsOk r) : countsOk (analyzeTable r t) :=
  foldl_preserves countsOk _
    (fun a row ha => processRow_countsOk t.columns a row ha) _ r h

/-- C5: in every completed analysis aggregate, the occurrence counts in
the character-frequency map summed over all characters equal
`total_chars`, and equally the four type-distribution bucket counts sum
to `total_chars`; in particular a single text cell `"A1!"` contributes 1
to alphabetic (`alphabets`), 1 to numeric, 1 to special, and 3 to
`total_chars`. -/
theorem analysis_counts_consistent :
    (∀ db : Database,
        freqSum (analyzeDb db).char_frequency = (analyzeDb db).total_chars
        ∧ (analyzeDb db).type_distribution.total = (analyzeDb db).total_chars)
    ∧ (processCell "col" emptyResult (CellValue.Text "A1!")).type_distribution
        = ⟨1, 1, 1, 0⟩
    ∧ (processCell "col" emptyResult (CellValue.Text "A1!")).total_chars = 3 := by
  refine ⟨?_, by decide, by decide⟩
  intro db
  exact foldl_preserves countsOk analyzeTable
    (fun r t hr => analyzeTable_countsOk r t hr) db.tables emptyResult
    ⟨rfl, rfl⟩

/-- The decimal digit character for `d < 10`. -/
def digitChar (d : Nat) : Char := Char.ofNat (48 + d)

/-- Big-endian decimal digits of `n`, prepended to `acc`. -/
def natToDigitsAux (n : Nat) (acc : List Char) : List Char :=
  if h : n = 0 then acc
  else natToDigitsAux (n / 10) (digitChar (n % 10) :: acc)
termination_by n
decreasing_by exact Nat.div_lt_self (Nat.pos_of_ne_zero h) (by omega)

/-- Modelled from the spec: frequency-map keys are persisted as the plain
decimal rendering of the code point — integers, not locale-dependent
text (§6). -/
def encodeDec (n : Nat) : String :=
  if n = 0 then "0" else String.mk (natToDigitsAux n [])

/-- The numeric value of a decimal digit character, if it is one. -/
def digitVal (c : Char) : Option Nat :=
  if 48 ≤ c.toNat ∧ c.toNat ≤ 57 then some (c.toNat - 48) else none

/-- Fold decimal digit characters into a value, failing on a non-digit. -/
def decodeDecAux : List Char → Nat → Option Nat
  | [], acc => some acc
  | c :: cs, acc =>
    match digitVal c with
    | some d => decodeDecAux cs (acc * 10 + d)
    | none => none

/-- Parse a non-empty all-digit string back into the key it encodes. -/
def decodeDec (s : String) : Option Nat :=
  if s.data.isEmpty then none else decodeDecAux s.data 0

theorem digitVal_digitChar (d : Nat) (h : d < 10) :
    digitVal (digitChar d) = some d := by
  interval_cases d <;> decide

theorem natToDigitsAux_append (n : Nat) :
    ∀ cs, natToDigitsAux n cs = natToDigitsAux n [] ++ cs := by
  induction n using Nat.strong_induction_on with
  | _ n ih =>
    intro cs
    by_cases h : n = 0
    · subst h
      simp [natToDigitsAux]
    · conv_lhs => rw [natToDigitsAux]
      conv_rhs => rw [natToDigitsAux]
      rw [dif_neg h, dif_neg h,
        ih (n / 10) (Nat.div_lt_self (Nat.pos_of_ne_zero h) (by omega)),
        ih (n / 10) (Nat.div_lt_self (Nat.pos_of_ne_zero h) (by omega))
          [digitChar (n % 10)]]
      simp

theorem decodeDecAux_append (l1 l2 : List Char) (acc : Nat) :
    decodeDecAux (l1 ++ l2) acc =
      match decodeDecAux l1 acc with
      | some a => decodeDecAux l2 a
      | none => none := by
  induction l1 generalizing acc with
  | nil => simp [decodeDecAux]
  | cons c cs ih =>
    simp only [List.cons_append, decodeDecAux]
    cases digitVal c with
    | none => rfl
    | some d => exact ih (acc * 10 + d)

theorem decodeDecAux_digits (n : Nat) (hn : 0 < n) :
    ∀ acc, decodeDecAux (natToDigitsAux n []) acc =
      some (acc * 10 ^ (natToDigitsAux n []).length + n) := by
  induction n using Nat.strong_induction_on with
  | _ n ih =>
    intro acc
    have hne : n ≠ 0 := Nat.pos_iff_ne_zero.mp hn
    have hstep : natToDigitsAux n [] =
        natToDigitsAux (n / 10) [] ++ [digitChar (n % 10)] := by
      rw [natToDigitsAux, dif_neg hne, natToDigitsAux_append]
    by_cases hsmall : n < 10
    · have hq : n / 10 = 0 := Nat.div_eq_of_lt hsmall
      have hm : n % 10 = n := Nat.mod_eq_of_lt hsmall
      have h0 : natToDigitsAux 0 [] = ([] : List Char) := by
        rw [natToDigitsAux]
        rfl
      rw [hstep, hq, hm, h0, List.nil_append]
      simp only [decodeDecAux, digitVal_digitChar n hsmall,
        List.length_cons, List.length_nil]
      norm_num
    · have hq : 0 < n / 10 := by
        have := Nat.div_add_mod n 10
        have hmlt : n % 10 < 10 := Nat.mod_lt n (by omega)
        omega
      rw [hstep, decodeDecAux_append,
        ih (n / 10) (Nat.div_lt_self hn (by omega)) hq acc]
      simp only [decodeDecAux, digitVal_digitChar (n % 10) (Nat.mod_lt n (by omega)),
        List.length_append, List.length_cons, List.length_nil]
      have hpow : (10 : Nat) ^ ((natToDigitsAux (n / 10) []).length + (0 + 1))
          = 10 ^ (natToDigitsAux (n / 10) []).length * 10 := by
        rw [Nat.zero_add, pow_succ]
      rw [hpow]
      congr 1
      have hdm : 10 * (n / 10) + n % 10 = n := Nat.div_add_mod n 10
      set P := (10 : Nat) ^ (natToDigitsAux (n / 10) []).length with hP
      set q := n / 10
      set r := n % 10
      calc (acc * P + q) * 10 + r = acc * (P * 10) + (10 * q + r) := by ring
        _ = acc * (P * 10) + n := by rw [hdm]

theorem decodeDec_encodeDec (n : Nat) : decodeDec (encodeDec n) = some n := by
  by_cases h : n = 0
  · subst h
    decide
  · have hn : 0 < n := Nat.pos_of_ne_zero h
    have hstep : natToDigitsAux n [] =
        natToDigitsAux (n / 10) [] ++ [digitChar (n % 10)] := by
      rw [natToDigitsAux, dif_neg h, natToDigitsAux_append]
    have hne : (natToDigitsAux n []).isEmpty = false := by
      rw [hstep]
      simp
    rw [encodeDec, if_neg h, decodeDec]
    have hdata : (String.mk (natToDigitsAux n [])).data = natToDigitsAux n [] := rfl
    rw [hdata, hne]
    simp only [Bool.false_eq_true, if_false]
    rw [decodeDecAux_digits n hn 0]
    simp

/-- A JSON-like document value (§6 persisted result document). -/
inductive Json where
  | num : Nat → Json
  | str : String → Json
  | arr : List Json → Json
  | obj : List (String × Json) → Json

/-- Modelled from the spec: the frequency map is persisted as an object
keyed by the decimal Unicode code point with integer values (§6). -/
def serializeFreq (l : List (Nat × Nat)) : List (String × Json) :=
  l.map (fun p => (encodeDec p.1, Json.num p.2))

/-- Modelled from the spec: column formats are persisted as an object
keyed by column name with array-of-string values (§6). -/
def serializeFormats (l : List (String × List String)) :
    List (String × Json) :=
  l.map (fun p => (p.1, Json.arr (p.2.map Json.str)))

/-- Modelled from the spec: the persisted result document — one JSON-like
object with exactly the fields `total_chars`, `char_frequency`,
`type_distribution` and `column_formats` (§6). -/
def serializeResult (r : AnalysisResult) : Json :=
  Json.obj
    [("total_chars", Json.num r.total_chars),
     ("char_frequency", Json.obj (serializeFreq r.char_frequency)),
     ("type_distribution", Json.obj
        [("numeric", Json.num r.type_distribution.numeric),
         ("alphabets", Json.num r.type_distribution.alphabets),
         ("special", Json.num r.type_distribution.special),
         ("unknown", Json.num r.type_distribution.unknown)]),
     ("column_formats", Json.obj (serializeFormats r.column_formats))]

/-- Parse the persisted frequency object back, decoding each decimal key. -/
def deserializeFreq : List (String × Json) → Option (List (Nat × Nat))
  | [] => some []
  | (k, Json.num v) :: rest =>
    match decodeDec k, deserializeFreq rest with
    | some kn, some r => some ((kn, v) :: r)
    | _, _ => none
  | _ => none

/-- Parse a JSON array of strings. -/
def deserializeStrList : List Json → Option (List String)
  | [] => some []
  | Json.str s :: rest =>
    match deserializeStrList rest with
    | some r => some (s :: r)
    | none => none
  | _ => none

/-- Parse the persisted column-format object back. -/
def deserializeFormats :
    List (String × Json) → Option (List (String × List String))
  | [] => some []
  | (c, Json.arr xs) :: rest =>
    match deserializeStrList xs, deserializeFormats rest with
    | some fs, some r => some ((c, fs) :: r)
    | _, _ => none
  | _ => none

/-- Parse the persisted type-distribution object back (field names
exactly as in §3/§6, in serialization order). -/
def deserializeDist : Json → Option TypeDist
  | Json.obj [(k1, Json.num a), (k2, Json.num b), (k3, Json.num c),
      (k4, Json.num d)] =>
    if k1 = "numeric" ∧ k2 = "alphabets" ∧ k3 = "special" ∧ k4 = "unknown"
    then some ⟨a, b, c, d⟩ else none
  | _ => none

/-- Parse a persisted result document back into an `AnalysisResult`. -/
def deserializeResult : Json → Option AnalysisResult
  | Json.obj [(k1, Json.num t), (k2, Json.obj fs), (k3, td),
      (k4, Json.obj cf)] =>
    if k1 = "total_chars" ∧ k2 = "char_frequency"
        ∧ k3 = "type_distribution" ∧ k4 = "column_formats" then
      match deserializeFreq fs, deserializeDist td, deserializeFormats cf with
      | some f, some d, some c => some ⟨t, f, d, c⟩
      | _, _, _ => none
    else none
  | _ => none

theorem deserializeFreq_serializeFreq (l : List (Nat × Nat)) :
    deserializeFreq (serializeFreq l) = some l := by
  induction l with
  | nil => rfl
  | cons p rest ih =>
    obtain ⟨k, v⟩ := p
    simp only [serializeFreq, List.map_cons] at ih ⊢
    simp only [deserializeFreq, decodeDec_encodeDec, ih]

theorem deserializeStrList_map (l : List String) :
    deserializeStrList (l.map Json.str) = some l := by
  induction l with
  | nil => rfl
  | cons s rest ih =>
    simp only [List.map_cons, deserializeStrList, ih]

theorem deserializeFormats_serializeFormats (l : List (String × List String)) :
    deserializeFormats (serializeFormats l) = some l := by
  induction l with
  | nil => rfl
  | cons p rest ih =>
    obtain ⟨c, fs⟩ := p
    simp only [serializeFormats, List.map_cons] at ih ⊢
    simp only [deserializeFormats, deserializeStrList_map, ih]

theorem deserializeResult_serializeResult (r : AnalysisResult) :
    deserializeResult (serializeResult r) = some r := by
  simp [serializeResult, deserializeResult, deserializeDist,
    deserializeFreq_serializeFreq, deserializeFormats_serializeFormats]

/-- Modelled from the spec: the Result Store keeps one persisted document
per database entry (§4.6); the catalog association is keyed by path. -/
structure ResultStore where
  entries : List (String × Json)

/-- Modelled from the spec: `save(path, result)` serializes the aggregate
and overwrites any prior result for that path (§4.6). -/
def saveResult (st : ResultStore) (path : String) (r : AnalysisResult) :
    ResultStore :=
  ⟨(path, serializeResult r) :: st.entries.filter (fun e => !(e.1 == path))⟩

/-- Modelled from the spec: `load(path)` returns the most recently saved
result, or nothing if none exists (§4.6). -/
def loadResult (st : ResultStore) (path : String) : Option AnalysisResult :=
  match st.entries.lookup path with
  | some j => deserializeResult j
  | none => none

/-- C6: saving then loading round-trips the `AnalysisResult` losslessly,
the persisted document is a JSON-like object with exactly the fields
`total_chars` (integer), `char_frequency` (object keyed by the decimal
Unicode code point, integer values, keys losslessly decodable as
integers), `type_distribution` (object with integer fields `numeric`,
`alphabets`, `special`, `unknown`), and `column_formats` (object keyed
by column name with array-of-string values). -/
theorem resultStore_roundtrip (st : ResultStore) (path : String)
    (r : AnalysisResult) :
    loadResult (saveResult st path r) path = some r
    ∧ serializeResult r = Json.obj
        [("total_chars", Json.num r.total_chars),
         ("char_frequency", Json.obj (serializeFreq r.char_frequency)),
         ("type_distribution", Json.obj
            [("numeric", Json.num r.type_distribution.numeric),
             ("alphabets", Json.num r.type_distribution.alphabets),
             ("special", Json.num r.type_distribution.special),
             ("unknown", Json.num r.type_distribution.unknown)]),
         ("column_formats", Json.obj (serializeFormats r.column_formats))]
    ∧ ∀ k : Nat, decodeDec (encodeDec k) = some k := by
  refine ⟨?_, rfl, decodeDec_encodeDec⟩
  unfold loadResult saveResult
  simp only [List.lookup_cons, beq_self_eq_true]
  exact deserializeResult_serializeResult r

/-- The progress payload delivered on the `analysis-progress` event
(§3 ProgressSnapshot, §6: the fields read by Analytics.jsx are `db_path`,
`records_processed`, `total_records`, `progress`,
`speed_records_per_sec`, `time_remaining_secs`, `is_finished`). -/
structure ProgressSnapshot where
  db_path : String
  records_processed : Nat
  total_records : Nat
  progress : Nat
  speed_records_per_sec : Nat
  time_remaining_secs : Option Nat
  is_finished : Bool
deriving DecidableEq, Repr

/-- Modelled from the spec: percent complete is
`records_processed / total_records * 100` clamped to `[0, 100]` (§3). -/
def percentOf (processed total : Nat) : Nat :=
  if total = 0 then 100 else min 100 (processed * 100 / total)

/-- Modelled from the spec: a published snapshot (§3): estimated seconds
remaining is `(total - processed) / throughput`, undefined/omitted when
throughput is zero. -/
def mkSnapshot (path : String) (processed total speed : Nat)
    (finished : Bool) : ProgressSnapshot :=
  { db_path := path
    records_processed := processed
    total_records := total
    progress := percentOf processed total
    speed_records_per_sec := speed
    time_remaining_secs :=
      if speed = 0 then none else some ((total - processed) / speed)
    is_finished := finished }

/-- Modelled from the spec: a job owned by the registry (§3 AnalysisJob):
cancellation flag, progress snapshot, started-at timestamp. -/
structure AnalysisJob where
  cancelled : Bool
  snapshot : ProgressSnapshot
  started_at : Nat
deriving DecidableEq, Repr

/-- Modelled from the spec: the process-wide map from database path to
its running job (§4.5). -/
structure JobRegistry where
  jobs : List (String × AnalysisJob)
deriving DecidableEq, Repr

/-- The fresh job created on an admitted start request. -/
def newJob (path : String) (total now : Nat) : AnalysisJob :=
  ⟨false, mkSnapshot path 0 total 0 false, now⟩

/-- Modelled from the spec: `start(path)` admits a new job only if no job
currently occupies that path; otherwise it fails with `AlreadyRunning`
and does not restart the existing job (§4.5). -/
def startJob (reg : JobRegistry) (path : String) (total now : Nat) :
    Except DbError Unit × JobRegistry :=
  match reg.jobs.lookup path with
  | some _ => (Except.error DbError.AlreadyRunning, reg)
  | none => (Except.ok (), ⟨(path, newJob path total now) :: reg.jobs⟩)

/-- C7: for every path, `start(path)` admits a new job if and only if no
job currently occupies that path; when a job is already running it fails
with `AlreadyRunning`, does not restart the existing job, and leaves the
original job (its progress snapshot included) unaffected. -/
theorem startJob_admission (reg : JobRegistry) (path : String)
    (total now : Nat) :
    (reg.jobs.lookup path = none →
      startJob reg path total now
        = (Except.ok (), ⟨(path, newJob path total now) :: reg.jobs⟩)
      ∧ (startJob reg path total now).2.jobs.lookup path
          = some (newJob path total now))
    ∧ ∀ j, reg.jobs.lookup path = some j →
        startJob reg path total now
          = (Except.error DbError.AlreadyRunning, reg)
        ∧ (startJob reg path total now).2.jobs.lookup path = some j := by
  constructor
  · intro h
    unfold startJob
    rw [h]
    refine ⟨rfl, ?_⟩
    simp [List.lookup_cons]
  · intro j h
    unfold startJob
    rw [h]
    exact ⟨rfl, h⟩

/-- Witness for C7: starting on a registry that already holds a job for
the path fails with `AlreadyRunning` and keeps the registry intact. -/
theorem startJob_admission_witness :
    startJob ⟨[("p", newJob "p" 5 0)]⟩ "p" 7 9
      = (Except.error DbError.AlreadyRunning, ⟨[("p", newJob "p" 5 0)]⟩)
    ∧ (startJob ⟨[("p", newJob "p" 5 0)]⟩ "p" 7 9).2.jobs.lookup "p"
        = some (newJob "p" 5 0) :=
  (startJob_admission ⟨[("p", newJob "p" 5 0)]⟩ "p" 7 9).2
    (newJob "p" 5 0) (by rfl)

/-- Modelled from the spec: the cooperative cancellation flag, checked at
batch boundaries (§5); `cancelAt = some k` means the stop request lands
before the batch at index `k` is processed. -/
def cancelledAt (cancelAt : Option Nat) (step : Nat) : Bool :=
  match cancelAt with
  | none => false
  | some k => decide (k ≤ step)

/-- Modelled from the spec: the scan loop (§4.4 steps 2–6): before each
batch check the cancellation flag — if set, stop immediately and publish
a final snapshot with the terminal flag set, discarding partial results
(nothing is saved); otherwise process the batch and continue; on normal
completion persist the aggregate to the Result Store and publish a
terminal snapshot with percent pinned to 100.  Returns the final
snapshot together with the resulting store. -/
def scanLoop (path : String) (columns : List String)
    (batches : List (List (List CellValue))) (cancelAt : Option Nat)
    (step : Nat) (acc : AnalysisResult) (processed total : Nat)
    (store : ResultStore) : ProgressSnapshot × ResultStore :=
  match batches with
  | [] =>
    ({ mkSnapshot path processed total 0 true with progress := 100 },
      saveResult store path acc)
  | b :: rest =>
    if cancelledAt cancelAt step then
      (mkSnapshot path processed total 0 true, store)
    else
      scanLoop path columns rest cancelAt (step + 1)
        (b.foldl (processRow columns) acc) (processed + b.length) total store

theorem scanLoop_cancel_aux (path : String) (columns : List String)
    (total k : Nat) :
    ∀ (batches : List (List (List CellValue))) (step : Nat)
      (acc : AnalysisResult) (processed : Nat) (store : ResultStore),
      batches ≠ [] → k < step + batches.length →
      (scanLoop path columns batches (some k) step acc processed total
          store).1.is_finished = true
      ∧ (scanLoop path columns batches (some k) step acc processed total
          store).2 = store := by
  intro batches
  induction batches with
  | nil =>
    intro step acc processed store hne _
    exact absurd rfl hne
  | cons b rest ih =>
    intro step acc processed store _ hlt
    by_cases hc : k ≤ step
    · have hcan : cancelledAt (some k) step = true := by
        simp [cancelledAt, hc]
      simp [scanLoop, hcan, mkSnapshot]
    · have hcan : cancelledAt (some k) step = false := by
        simp only [cancelledAt, decide_eq_false_iff_not]
        omega
      have hne2 : rest ≠ [] := by
        cases rest with
        | nil =>
          exfalso
          simp only [List.length_cons, List.length_nil] at hlt
          omega
        | cons c cs => simp
      have hlt2 : k < (step + 1) + rest.length := by
        simp only [List.length_cons] at hlt
        omega
      simp only [scanLoop, hcan, Bool.false_eq_true, if_false]
      exact ih (step + 1) (b.foldl (processRow columns) acc)
        (processed + b.length) store hne2 hlt2

/-- C8: when the cancellation flag is set before the scan has consumed
all batches, the scan stops with a final terminal snapshot
(`is_finished = true`) and persists nothing: the result store — in
particular any previously stored result for that path — is unchanged. -/
theorem cancelledScan_terminal_and_unpersisted (path : String)
    (columns : List String) (batches : List (List (List CellValue)))
    (k : Nat) (acc : AnalysisResult) (processed total : Nat)
    (store : ResultStore) (hk : k < batches.length) :
    (scanLoop path columns batches (some k) 0 acc processed total
        store).1.is_finished = true
    ∧ (scanLoop path columns batches (some k) 0 acc processed total
        store).2 = store := by
  have hne : batches ≠ [] := by
    cases batches with
    | nil => simp at hk
    | cons b rest => simp
  exact scanLoop_cancel_aux path columns total k batches 0 acc processed
    store hne (by omega)

/-- Witness for C8: cancelling before the only batch of a one-batch scan
leaves the empty store untouched and marks the snapshot terminal. -/
theorem cancelledScan_witness :
    (scanLoop "p" ["c"] [[[CellValue.Null]]] (some 0) 0 emptyResult 0 1
        ⟨[]⟩).1.is_finished = true
    ∧ (scanLoop "p" ["c"] [[[CellValue.Null]]] (some 0) 0 emptyResult 0 1
        ⟨[]⟩).2 = ⟨[]⟩ :=
  cancelledScan_terminal_and_unpersisted "p" ["c"] [[[CellValue.Null]]] 0
    emptyResult 0 1 ⟨[]⟩ (by simp)

/-- C9: in every published snapshot built by `mkSnapshot`, the estimated
seconds remaining equals `(total_records - records_processed) /
throughput` when the throughput is nonzero, and the field is omitted
(is `none`) whenever the throughput is zero. -/
theorem snapshot_time_remaining (path : String)
    (processed total speed : Nat) (finished : Bool) :
    (speed ≠ 0 →
      (mkSnapshot path processed total speed finished).time_remaining_secs
        = some ((total - processed) / speed))
    ∧ (speed = 0 →
      (mkSnapshot path processed total speed finished).time_remaining_secs
        = none) := by
  constructor
  · intro h
    simp [mkSnapshot, h]
  · intro h
    simp [mkSnapshot, h]

/-- Witness for C9: at throughput 2 with 8 records left the estimate is
their quotient; the hypothesis `2 ≠ 0` is discharged concretely. -/
theorem snapshot_time_remaining_witness :
    (mkSnapshot "p" 2 10 2 false).time_remaining_secs
      = some ((10 - 2) / 2) :=
  (snapshot_time_remaining "p" 2 10 2 false).1 (by omega)

/-- The Analytics view's progress-related state: the `progress` and
`analyzing` React state hooks (Analytics.jsx). -/
structure AnalyticsState where
  progress : Option ProgressSnapshot
  analyzing : Bool
deriving DecidableEq, Repr

/-- The `analysis-progress` listener effect of Analytics.jsx: an event
whose payload `db_path` equals the viewed path stores the payload in
`progress` and, when the payload is terminal, clears `analyzing`; an
event for any other path leaves the state untouched. -/
def onProgressEvent (dbPath : String) (st : AnalyticsState)
    (ev : ProgressSnapshot) : AnalyticsState :=
  if ev.db_path == dbPath then
    { progress := some ev
      analyzing := if ev.is_finished then false else st.analyzing }
  else st

/-- The view's initial state: `useState(null)` / `useState(false)`. -/
def initialAnalyticsState : AnalyticsState := ⟨none, false⟩

/-- The C10 invariant: `progress` is `null` or a snapshot belonging to
the viewed path. -/
def progressConsistent (dbPath : String) (st : AnalyticsState) : Prop :=
  st.progress = none
    ∨ ∃ s, st.progress = some s ∧ s.db_path = dbPath

/-- C10: for every sequence of incoming `analysis-progress` events, the
Analytics view's progress state is only ever `null` or a snapshot whose
`db_path` equals the path currently being viewed; an event whose payload
`db_path` differs from the viewed path leaves the progress state and the
`analyzing` flag (the whole state) unchanged. -/
theorem analytics_progress_path_invariant (dbPath : String)
    (events : List ProgressSnapshot) :
    progressConsistent dbPath
      (events.foldl (onProgressEvent dbPath) initialAnalyticsState)
    ∧ ∀ st ev, ev.db_path ≠ dbPath → onProgressEvent dbPath st ev = st := by
  constructor
  · refine foldl_preserves (progressConsistent dbPath)
      (onProgressEvent dbPath) ?_ events initialAnalyticsState (Or.inl rfl)
    intro st ev hst
    unfold onProgressEvent
    split
    · rename_i h
      exact Or.inr ⟨ev, rfl, beq_iff_eq.mp h⟩
    · exact hst
  · intro st ev h
    unfold onProgressEvent
    rw [if_neg (by simpa using h)]

/-- Witness for C10: an event for path `"b"` while viewing `"a"` is a
no-op on the state. -/
theorem analytics_progress_witness :
    onProgressEvent "a" ⟨none, true⟩ ⟨"b", 0, 0, 0, 0, none, false⟩
      = ⟨none, true⟩ :=
  (analytics_progress_path_invariant "a" []).2 ⟨none, true⟩
    ⟨"b", 0, 0, 0, 0, none, false⟩ (by decide)

end DBVis
